import Mathlib

/-!
Shallow embedding of the schema-resolution core of
`MetaDataCreatorNoProxy.py` (class `MetaDataCreator`): the methods
`_translate_type`, `_get_type`, `_get_ndrm_type`, `_get_prop_type` and
`_get_properties`, which resolve JSON-schema-like definitions connected
through `$ref`, `allOf` and `anyOf`.

A schema node is modelled by the six keys the resolver ever probes
(`properties`, `required`, `type`, `$ref`, `allOf`, `anyOf`), each
optional; a Python dict whose key is absent is `none`.  Python dicts are
insertion-ordered association lists.  A Python `KeyError`/`TypeError` is
`Except.error` carrying the offending key; the implicit Python `None`
returned when `_get_prop_type` falls off the end is the value
`Value.pyNone`.  Unbounded recursion through `$ref` chains is modelled
with a fuel parameter: `.error "fuel"` can only arise on cyclic input,
which the design declares a precondition violation.
-/

namespace MetaData

/-- A sub-schema node: the six keys the resolver probes, each optional.
`props` is the `properties` mapping as an insertion-ordered assoc list. -/
inductive SchemaNode where
  | mk (props : Option (List (String × SchemaNode)))
       (required : Option (List String))
       (type : Option String)
       (ref : Option String)
       (allOf : Option (List SchemaNode))
       (anyOf : Option (List SchemaNode))

def SchemaNode.props : SchemaNode → Option (List (String × SchemaNode))
  | .mk p _ _ _ _ _ => p

def SchemaNode.required : SchemaNode → Option (List String)
  | .mk _ r _ _ _ _ => r

def SchemaNode.type : SchemaNode → Option String
  | .mk _ _ t _ _ _ => t

def SchemaNode.ref : SchemaNode → Option String
  | .mk _ _ _ r _ _ => r

def SchemaNode.allOf : SchemaNode → Option (List SchemaNode)
  | .mk _ _ _ _ a _ => a

def SchemaNode.anyOf : SchemaNode → Option (List SchemaNode)
  | .mk _ _ _ _ _ a => a

/-- The values the resolver synthesizes: `""`, `[]`, `{}` and the Python
`None` that `_get_prop_type` returns when it falls off the end. -/
inductive Value where
  | emptyStr
  | emptyArr
  | emptyObj
  | pyNone
deriving DecidableEq, Repr

/-- The `definitions` mapping: name to sub-schema, insertion ordered. -/
def Defs := List (String × SchemaNode)

/-- Python `dict[key]` on `definitions` (first binding wins; a real dict
has distinct keys). -/
def lookupDef : Defs → String → Option SchemaNode
  | [], _ => none
  | (k, v) :: rest, n => if k = n then some v else lookupDef rest n

/-- Python `schema["properties"][name]` lookup into a properties mapping. -/
def lookupProp : List (String × SchemaNode) → String → Option SchemaNode
  | [], _ => none
  | (k, v) :: rest, n => if k = n then some v else lookupProp rest n

/-- The characters after the last `'/'` (the whole list when no `'/'`
occurs), accumulating the current segment. -/
def lastSegAux : List Char → List Char → List Char
  | [], acc => acc
  | c :: rest, acc =>
    if c = '/' then lastSegAux rest [] else lastSegAux rest (acc ++ [c])

/-- `ref.split("/")[-1]`: the final segment of a `$ref` path. -/
def refName (r : String) : String := String.mk (lastSegAux r.data [])

/-- `_translate_type`: `"array"` to `[]`, `"string"` to `""`, anything
else to `{}`. -/
def translate_type (t : String) : Value :=
  if t = "array" then .emptyArr
  else if t = "string" then .emptyStr
  else .emptyObj

/-- The shared `anyOf` scan (`_get_type` lines 243-249 and the first
loop of `_get_prop_type` lines 322-327): the mapped default of the first
alternative carrying a `type` key other than `"null"`; `none` when no
alternative carries a non-null `type`. -/
def firstNonNullType : List SchemaNode → Option Value
  | [] => none
  | d :: rest =>
    match d.type with
    | some t => if t = "null" then firstNonNullType rest else some (translate_type t)
    | none => firstNonNullType rest

/-- `_get_type`: the default placeholder value of a sub-schema node.
`properties` present wins with `{}`; then `type`; then the `anyOf` scan;
then `$ref` resolution (a missing target is a `KeyError`); else `{}`. -/
def get_type (defs : Defs) : Nat → SchemaNode → Except String Value
  | 0, _ => .error "fuel"
  | fuel + 1, s =>
    if s.props.isSome then .ok .emptyObj
    else
      match s.type with
      | some t => .ok (translate_type t)
      | none =>
        match s.anyOf with
        | some alts => .ok ((firstNonNullType alts).getD .emptyObj)
        | none =>
          match s.ref with
          | some r =>
            match lookupDef defs (refName r) with
            | some s2 => get_type defs fuel s2
            | none => .error (refName r)
          | none => .ok .emptyObj

/-- The `allOf` loop of `_get_ndrm_type` (lines 272-278): each entry
carrying a `$ref` contributes the full chain of its referenced
definition (computed by `chain`), appended in listed order; entries
without `$ref` contribute nothing; a missing target is a `KeyError`. -/
def ndrmAllF (chain : String → SchemaNode → Except String (List String)) (defs : Defs) :
    List SchemaNode → Except String (List String)
  | [] => .ok []
  | d :: rest =>
    match d.ref with
    | some r =>
      match lookupDef defs (refName r) with
      | some s2 =>
        match chain (refName r) s2 with
        | .ok c => (ndrmAllF chain defs rest).map (fun cs => c ++ cs)
        | .error e => .error e
      | none => .error (refName r)
    | none => ndrmAllF chain defs rest

/-- `_get_ndrm_type`: the qualified type chain `ndrm:<name>` followed by
the chains of all ancestors reached through `allOf`/`$ref`. -/
def get_ndrm_type (defs : Defs) (fuel : Nat) (name : String) (s : SchemaNode) :
    Except String (List String) :=
  match fuel with
  | 0 => .error "fuel"
  | fuel + 1 =>
    match s.allOf with
    | some entries =>
      (ndrmAllF (fun n t => get_ndrm_type defs fuel n t) defs entries).map
        (fun cs => ("ndrm:" ++ name) :: cs)
    | none =>
      match s.ref with
      | some r =>
        match lookupDef defs (refName r) with
        | some s2 =>
          (get_ndrm_type defs fuel (refName r) s2).map (fun cs => ("ndrm:" ++ name) :: cs)
        | none => .error (refName r)
      | none => .ok ["ndrm:" ++ name]

/-- `_get_prop_type`: the default for one named property of an object
schema.  A missing `properties` key or missing property name yields the
empty-string sentinel; then `type` wins, then `$ref` (resolved through
`_get_type` of the referenced definition), then `allOf` yields `{}`,
then the `anyOf` scan; the second `anyOf` loop (lines 328-331) looks for
an alternative carrying `$ref` but then reads `prop["$ref"]` — the
containing property, which has no `$ref` on this path — so it raises a
`KeyError`; with no match at all the Python function returns `None`. -/
def get_prop_type (defs : Defs) (fuel : Nat) (name : String) (s : SchemaNode) :
    Except String Value :=
  let propOpt := match s.props with
    | none => none
    | some ps => lookupProp ps name
  match propOpt with
  | none => .ok .emptyStr
  | some prop =>
    match prop.type with
    | some t => .ok (translate_type t)
    | none =>
      match prop.ref with
      | some r =>
        match lookupDef defs (refName r) with
        | some m => get_type defs fuel m
        | none => .error (refName r)
      | none =>
        if prop.allOf.isSome then .ok .emptyObj
        else
          match prop.anyOf with
          | some alts =>
            match firstNonNullType alts with
            | some v => .ok v
            | none =>
              if alts.any (fun d => d.ref.isSome) then
                match prop.ref with
                | some r =>
                  match lookupDef defs (refName r) with
                  | some m => get_type defs fuel m
                  | none => .error (refName r)
                | none => .error "$ref"
              else .ok .pyNone
          | none => .ok .pyNone

/-- Does the accumulator already bind key `k`? (`prop in out_props`). -/
def hasKey (ps : List (String × SchemaNode)) (k : String) : Bool :=
  ps.any (fun kv => kv.1 = k)

/-- First-writer-wins merge (lines 369-372 and 383-385): each binding of
`new` is appended only when its key is not yet present. -/
def mergeProps (acc new : List (String × SchemaNode)) : List (String × SchemaNode) :=
  new.foldl (fun a kv => if hasKey a kv.1 then a else a ++ [kv]) acc

/-- The `required` loop of the `allOf` branch (lines 373-378): append
each name not yet present, with its default computed by `gpt`. -/
def addRequired (gpt : String → Except String Value) :
    List String → List String → List Value → Except String (List String × List Value)
  | [], req, tys => .ok (req, tys)
  | p :: rest, req, tys =>
    if req.contains p then addRequired gpt rest req tys
    else
      match gpt p with
      | .ok t => addRequired gpt rest (req ++ [p]) (tys ++ [t])
      | .error e => .error e

/-- The `$ref` merge loop of the `allOf` branch (lines 386-389): append
each recursively obtained required name not yet present, together with
its already-computed default. -/
def addRequiredPairs : List (String × Value) → List String → List Value →
    List String × List Value
  | [], req, tys => (req, tys)
  | (p, t) :: rest, req, tys =>
    if req.contains p then addRequiredPairs rest req tys
    else addRequiredPairs rest (req ++ [p]) (tys ++ [t])

/-- The defaults of the required names in the direct case
(lines 352-355): `_get_prop_type` applied to each required name in
order. -/
def reqListTypes (gpt : String → Except String Value) :
    List String → Except String (List Value)
  | [] => .ok []
  | q :: rest =>
    match gpt q with
    | .ok t => (reqListTypes gpt rest).map (fun ts => t :: ts)
    | .error e => .error e

/-- The conditional property merge at the head of each `allOf` loop
iteration (`if "properties" in dic:`, lines 369-372): merge when the
entry carries `properties`, otherwise leave the accumulator unchanged. -/
def mergePropsOpt (acc : List (String × SchemaNode)) :
    Option (List (String × SchemaNode)) → List (String × SchemaNode)
  | some ps => mergeProps acc ps
  | none => acc

/-- The `allOf` accumulation loop of `_get_properties` (lines 367-389),
parameterized by the recursive resolver `gp` and the per-entry property
default `gpt`.  Per entry: merge its `properties` first-writer-wins;
then, if it has `required`, union those names (append-if-absent); else,
if it has `$ref`, resolve the target with `gp` and merge its triple the
same way.  A `gp` result of Python `None` is the unpacking `TypeError`;
a missing target is a `KeyError`. -/
def allOfMergeF (defs : Defs)
    (gp : SchemaNode → Except String (Option (List (String × SchemaNode) × List String × List Value)))
    (gpt : String → SchemaNode → Except String Value) :
    List SchemaNode → List (String × SchemaNode) → List String → List Value →
    Except String (List (String × SchemaNode) × List String × List Value)
  | [], outProps, req, tys => .ok (outProps, req, tys)
  | d :: rest, outProps, req, tys =>
    let outProps1 := mergePropsOpt outProps d.props
    match d.required with
    | some names =>
      match addRequired (fun p => gpt p d) names req tys with
      | .ok (req1, tys1) => allOfMergeF defs gp gpt rest outProps1 req1 tys1
      | .error e => .error e
    | none =>
      match d.ref with
      | some r =>
        match lookupDef defs (refName r) with
        | some s2 =>
          match gp s2 with
          | .ok (some (tps, treq, ttys)) =>
            let outProps2 := mergeProps outProps1 tps
            let rt := addRequiredPairs (treq.zip ttys) req tys
            allOfMergeF defs gp gpt rest outProps2 rt.1 rt.2
          | .ok none => .error "cannot unpack None"
          | .error e => .error e
        | none => .error (refName r)
      | none => allOfMergeF defs gp gpt rest outProps1 req tys

/-- `_get_properties`: the (properties, required, required-defaults)
triple of an object schema.  Guarded by `_get_type` returning a dict; a
non-dict result yields the empty triple; a dict-typed node with none of
`properties`, `$ref`, `allOf` falls off the Python function and returns
`None`, modelled as `.ok none`. -/
def get_properties (defs : Defs) : Nat → SchemaNode →
    Except String (Option (List (String × SchemaNode) × List String × List Value))
  | 0, _ => .error "fuel"
  | fuel + 1, s =>
    match get_type defs fuel s with
    | .error e => .error e
    | .ok v =>
      if v = .emptyObj then
        match s.props with
        | some ps =>
          match s.required with
          | some reqs =>
            match reqListTypes (fun q => get_prop_type defs fuel q s) reqs with
            | .ok tys => .ok (some (ps, reqs, tys))
            | .error e => .error e
          | none => .ok (some (ps, [], []))
        | none =>
          match s.ref with
          | some r =>
            match lookupDef defs (refName r) with
            | some s2 => get_properties defs fuel s2
            | none => .error (refName r)
          | none =>
            match s.allOf with
            | some entries =>
              match allOfMergeF defs (fun t => get_properties defs fuel t)
                  (fun p d => get_prop_type defs fuel p d) entries [] [] [] with
              | .ok res => .ok (some res)
              | .error e => .error e
            | none => .ok none
      else .ok (some ([], [], []))

/-! Concrete schema nodes used to exercise the resolver: the node
builders correspond to Python dict literals with the given keys. -/

/-- `{"type": t}` -/
def nodeS (t : String) : SchemaNode := .mk none none (some t) none none none

/-- `{"$ref": r}` -/
def nodeRef (r : String) : SchemaNode := .mk none none none (some r) none none

/-- `{}` -/
def emptyNode : SchemaNode := .mk none none none none none none

/-- The `Person` definition of the spec's round-trip scenario:
`{"properties": {"name": {"type": "string"}, "age": {"type": "string"}},
"required": ["name"]}`. -/
def personNode : SchemaNode :=
  .mk (some [("name", nodeS "string"), ("age", nodeS "string")])
    (some ["name"]) none none none none

def personDefs : Defs := [("Person", personNode)]

/-- `{"anyOf": [{"type": "null"}, {"type": "string"}]}` -/
def anyNullStr : SchemaNode :=
  .mk none none none none none (some [nodeS "null", nodeS "string"])

/-- The acyclic chain `Foo -> Bar -> Baz`. -/
def bazNode : SchemaNode := emptyNode

def barNode : SchemaNode := nodeRef "#/definitions/Baz"

def fooNode : SchemaNode := nodeRef "#/definitions/Bar"

def chainDefs : Defs := [("Foo", fooNode), ("Bar", barNode), ("Baz", bazNode)]

/-- Diamond inheritance: `Dia` has `allOf: [{$ref: A}, {$ref: B}]`, and
both `A` and `B` have `$ref: C`. -/
def cNode : SchemaNode := emptyNode

def aRefC : SchemaNode := nodeRef "#/definitions/C"

def bRefC : SchemaNode := nodeRef "#/definitions/C"

def diaNode : SchemaNode :=
  .mk none none none none
    (some [nodeRef "#/definitions/A", nodeRef "#/definitions/B"]) none

def diaDefs : Defs := [("A", aRefC), ("B", bRefC), ("C", cNode)]

/-- The spec's `allOf: [A, B]` merge scenario: `A` declares property
`x` (a string) and requires `x`; `B` declares a conflicting `x` (an
array) and requires `x` and `y`. -/
def abANode : SchemaNode :=
  .mk (some [("x", nodeS "string")]) (some ["x"]) none none none none

def abBNode : SchemaNode :=
  .mk (some [("x", nodeS "array")]) (some ["x", "y"]) none none none none

def abAllOfNode : SchemaNode :=
  .mk none none none none (some [abANode, abBNode]) none

/-- An `allOf` entry carrying both `required` and `$ref`:
`{"$ref": "#/definitions/P", "required": ["y"]}`. -/
def refReqEntry : SchemaNode :=
  .mk none (some ["y"]) none (some "#/definitions/P") none none

/-- `P`: `{"properties": {"x": {"type": "string"}}, "required": ["x"]}`. -/
def pDefNode : SchemaNode :=
  .mk (some [("x", nodeS "string")]) (some ["x"]) none none none none

def refReqDefs : Defs := [("P", pDefNode)]

/-- `{"allOf": [{"$ref": "#/definitions/P", "required": ["y"]}]}`. -/
def refReqAllOfNode : SchemaNode :=
  .mk none none none none (some [refReqEntry]) none

/-- An inline object property: `{"properties": {}}`. -/
def inlineObjProp : SchemaNode := .mk (some []) none none none none none

/-- `{"properties": {"p": {"properties": {}}}, "required": ["p"]}`. -/
def inlineObjOwner : SchemaNode :=
  .mk (some [("p", inlineObjProp)]) (some ["p"]) none none none none

/-- A property whose sub-schema is
`{"anyOf": [{"$ref": "#/definitions/X"}]}`. -/
def anyRefProp : SchemaNode :=
  .mk none none none none none (some [nodeRef "#/definitions/X"])

/-- `{"properties": {"p": {"anyOf": [{"$ref": "#/definitions/X"}]}}}`. -/
def anyRefOwner : SchemaNode :=
  .mk (some [("p", anyRefProp)]) none none none none none

def xDefs : Defs := [("X", nodeS "string")]

/-- `{"$ref": "#/definitions/Ghost"}` with empty definitions. -/
def ghostRef : SchemaNode := nodeRef "#/definitions/Ghost"

/-- `{"type": "object"}` -/
def objNode : SchemaNode := nodeS "object"

/-! Lemmas about the first-writer-wins property merge and the
append-if-absent required-name union. -/

theorem hasKey_append (ps qs : List (String × SchemaNode)) (k : String) :
    hasKey (ps ++ qs) k = (hasKey ps k || hasKey qs k) :=
  List.any_append

theorem lookupProp_append_of_hasKey (ps qs : List (String × SchemaNode)) (k : String)
    (h : hasKey ps k = true) : lookupProp (ps ++ qs) k = lookupProp ps k := by
  induction ps with
  | nil => simp [hasKey] at h
  | cons kv rest ih =>
    by_cases hk : kv.1 = k
    · obtain ⟨a, b⟩ := kv
      simp only [List.cons_append, lookupProp]
      rw [if_pos hk, if_pos hk]
    · obtain ⟨a, b⟩ := kv
      simp only [List.cons_append, lookupProp]
      rw [if_neg hk, if_neg hk]
      apply ih
      simp only [hasKey, List.any_cons] at h
      rcases Bool.or_eq_true_iff.mp h with h1 | h1
      · exact absurd (by simpa using h1) hk
      · exact h1

theorem mergeProps_nil (acc : List (String × SchemaNode)) :
    mergeProps acc [] = acc := rfl

theorem mergeProps_cons (acc : List (String × SchemaNode)) (kv : String × SchemaNode)
    (rest : List (String × SchemaNode)) :
    mergeProps acc (kv :: rest) =
      mergeProps (if hasKey acc kv.1 then acc else acc ++ [kv]) rest := rfl

theorem hasKey_mergeProps (acc new : List (String × SchemaNode)) (k : String)
    (h : hasKey acc k = true) : hasKey (mergeProps acc new) k = true := by
  induction new generalizing acc with
  | nil => exact h
  | cons kv rest ih =>
    rw [mergeProps_cons]
    by_cases hc : hasKey acc kv.1 = true
    · rw [if_pos hc]; exact ih acc h
    · rw [if_neg hc]
      exact ih _ (by rw [hasKey_append, h]; rfl)

theorem lookupProp_mergeProps (acc new : List (String × SchemaNode)) (k : String)
    (h : hasKey acc k = true) :
    lookupProp (mergeProps acc new) k = lookupProp acc k := by
  induction new generalizing acc with
  | nil => rfl
  | cons kv rest ih =>
    rw [mergeProps_cons]
    by_cases hc : hasKey acc kv.1 = true
    · rw [if_pos hc]; exact ih acc h
    · rw [if_neg hc]
      have h2 : hasKey (acc ++ [kv]) k = true := by rw [hasKey_append, h]; rfl
      rw [ih _ h2, lookupProp_append_of_hasKey _ _ _ h]

theorem hasKey_mergePropsOpt (acc : List (String × SchemaNode))
    (o : Option (List (String × SchemaNode))) (k : String)
    (h : hasKey acc k = true) : hasKey (mergePropsOpt acc o) k = true := by
  cases o with
  | none => exact h
  | some ps => exact hasKey_mergeProps acc ps k h

theorem lookupProp_mergePropsOpt (acc : List (String × SchemaNode))
    (o : Option (List (String × SchemaNode))) (k : String)
    (h : hasKey acc k = true) :
    lookupProp (mergePropsOpt acc o) k = lookupProp acc k := by
  cases o with
  | none => rfl
  | some ps => exact lookupProp_mergeProps acc ps k h

theorem nodup_append_singleton {l : List String} {a : String}
    (h : l.Nodup) (h2 : a ∉ l) : (l ++ [a]).Nodup := by
  simp [List.nodup_append, h]
  intro x
  exact h2 x

theorem addRequired_spec (gpt : String → Except String Value)
    (names : List String) (req req2 : List String) (tys tys2 : List Value)
    (h : addRequired gpt names req tys = .ok (req2, tys2)) :
    ∃ t, req2 = req ++ t := by
  induction names generalizing req tys with
  | nil =>
    simp only [addRequired] at h
    exact ⟨[], by simpa using (congrArg Prod.fst (Except.ok.inj h)).symm⟩
  | cons p rest ih =>
    simp only [addRequired] at h
    by_cases hc : req.contains p = true
    · rw [if_pos hc] at h
      exact ih req tys h
    · rw [if_neg hc] at h
      cases hg : gpt p with
      | error e => rw [hg] at h; exact absurd h (by simp)
      | ok t =>
        rw [hg] at h
        obtain ⟨u, hu⟩ := ih (req ++ [p]) (tys ++ [t]) h
        exact ⟨[p] ++ u, by rw [hu, List.append_assoc]⟩

theorem addRequired_nodup (gpt : String → Except String Value)
    (names : List String) (req req2 : List String) (tys tys2 : List Value)
    (h : addRequired gpt names req tys = .ok (req2, tys2))
    (hn : req.Nodup) : req2.Nodup := by
  induction names generalizing req tys with
  | nil =>
    simp only [addRequired] at h
    have h2 : req2 = req := by
      have := congrArg Prod.fst (Except.ok.inj h)
      simpa using this.symm
    rw [h2]; exact hn
  | cons p rest ih =>
    simp only [addRequired] at h
    by_cases hc : req.contains p = true
    · rw [if_pos hc] at h
      exact ih req tys h hn
    · rw [if_neg hc] at h
      cases hg : gpt p with
      | error e => rw [hg] at h; exact absurd h (by simp)
      | ok t =>
        rw [hg] at h
        have hp : p ∉ req := fun hm => hc (List.elem_iff.mpr hm)
        exact ih (req ++ [p]) (tys ++ [t]) h (nodup_append_singleton hn hp)

theorem addRequiredPairs_spec (pairs : List (String × Value))
    (req : List String) (tys : List Value) :
    ∃ t, (addRequiredPairs pairs req tys).1 = req ++ t := by
  induction pairs generalizing req tys with
  | nil => exact ⟨[], by simp [addRequiredPairs]⟩
  | cons pt rest ih =>
    obtain ⟨p, t⟩ := pt
    simp only [addRequiredPairs]
    by_cases hc : req.contains p = true
    · rw [if_pos hc]; exact ih req tys
    · rw [if_neg hc]
      obtain ⟨u, hu⟩ := ih (req ++ [p]) (tys ++ [t])
      exact ⟨[p] ++ u, by rw [hu, List.append_assoc]⟩

theorem addRequiredPairs_nodup (pairs : List (String × Value))
    (req : List String) (tys : List Value) (hn : req.Nodup) :
    (addRequiredPairs pairs req tys).1.Nodup := by
  induction pairs generalizing req tys with
  | nil => exact hn
  | cons pt rest ih =>
    obtain ⟨p, t⟩ := pt
    simp only [addRequiredPairs]
    by_cases hc : req.contains p = true
    · rw [if_pos hc]; exact ih req tys hn
    · rw [if_neg hc]
      have hp : p ∉ req := fun hm => hc (List.elem_iff.mpr hm)
      exact ih (req ++ [p]) (tys ++ [t]) (nodup_append_singleton hn hp)

/-! Step equations for the `allOf` accumulation loop, one per shape of
the current entry. -/

theorem allOfMergeF_nil (defs : Defs) (gp gpt) (outProps req tys) :
    allOfMergeF defs gp gpt [] outProps req tys = .ok (outProps, req, tys) := rfl

theorem allOfMergeF_cons_required_ok (defs : Defs) (gp gpt)
    (d : SchemaNode) (rest : List SchemaNode) (outProps req tys)
    (names : List String) (req1 : List String) (tys1 : List Value)
    (h : d.required = some names)
    (har : addRequired (fun p => gpt p d) names req tys = .ok (req1, tys1)) :
    allOfMergeF defs gp gpt (d :: rest) outProps req tys =
      allOfMergeF defs gp gpt rest (mergePropsOpt outProps d.props) req1 tys1 := by
  obtain ⟨p, rq, ty, rf, ao, an⟩ := d
  simp only [SchemaNode.required] at h
  subst h
  simp [allOfMergeF, SchemaNode.props, SchemaNode.required, SchemaNode.ref, har]

theorem allOfMergeF_cons_required_err (defs : Defs) (gp gpt)
    (d : SchemaNode) (rest : List SchemaNode) (outProps req tys)
    (names : List String) (e : String)
    (h : d.required = some names)
    (har : addRequired (fun p => gpt p d) names req tys = .error e) :
    allOfMergeF defs gp gpt (d :: rest) outProps req tys = .error e := by
  obtain ⟨p, rq, ty, rf, ao, an⟩ := d
  simp only [SchemaNode.required] at h
  subst h
  simp [allOfMergeF, SchemaNode.props, SchemaNode.required, SchemaNode.ref, har]

theorem allOfMergeF_cons_ref_ok (defs : Defs) (gp gpt)
    (d : SchemaNode) (rest : List SchemaNode) (outProps req tys)
    (r : String) (s2 : SchemaNode) (tps treq ttys)
    (hreq : d.required = none) (href : d.ref = some r)
    (hl : lookupDef defs (refName r) = some s2)
    (hg : gp s2 = .ok (some (tps, treq, ttys))) :
    allOfMergeF defs gp gpt (d :: rest) outProps req tys =
      allOfMergeF defs gp gpt rest
        (mergeProps (mergePropsOpt outProps d.props) tps)
        (addRequiredPairs (treq.zip ttys) req tys).1
        (addRequiredPairs (treq.zip ttys) req tys).2 := by
  obtain ⟨p, rq, ty, rf, ao, an⟩ := d
  simp only [SchemaNode.required] at hreq
  simp only [SchemaNode.ref] at href
  subst hreq
  subst href
  simp [allOfMergeF, SchemaNode.props, SchemaNode.required, SchemaNode.ref, hl, hg]

theorem allOfMergeF_cons_ref_missing (defs : Defs) (gp gpt)
    (d : SchemaNode) (rest : List SchemaNode) (outProps req tys)
    (r : String)
    (hreq : d.required = none) (href : d.ref = some r)
    (hl : lookupDef defs (refName r) = none) :
    allOfMergeF defs gp gpt (d :: rest) outProps req tys = .error (refName r) := by
  obtain ⟨p, rq, ty, rf, ao, an⟩ := d
  simp only [SchemaNode.required] at hreq
  simp only [SchemaNode.ref] at href
  subst hreq
  subst href
  simp [allOfMergeF, SchemaNode.props, SchemaNode.required, SchemaNode.ref, hl]

theorem allOfMergeF_cons_ref_unpack (defs : Defs) (gp gpt)
    (d : SchemaNode) (rest : List SchemaNode) (outProps req tys)
    (r : String) (s2 : SchemaNode)
    (hreq : d.required = none) (href : d.ref = some r)
    (hl : lookupDef defs (refName r) = some s2)
    (hg : gp s2 = .ok none) :
    allOfMergeF defs gp gpt (d :: rest) outProps req tys =
      .error "cannot unpack None" := by
  obtain ⟨p, rq, ty, rf, ao, an⟩ := d
  simp only [SchemaNode.required] at hreq
  simp only [SchemaNode.ref] at href
  subst hreq
  subst href
  simp [allOfMergeF, SchemaNode.props, SchemaNode.required, SchemaNode.ref, hl, hg]

theorem allOfMergeF_cons_ref_err (defs : Defs) (gp gpt)
    (d : SchemaNode) (rest : List SchemaNode) (outProps req tys)
    (r : String) (s2 : SchemaNode) (e : String)
    (hreq : d.required = none) (href : d.ref = some r)
    (hl : lookupDef defs (refName r) = some s2)
    (hg : gp s2 = .error e) :
    allOfMergeF defs gp gpt (d :: rest) outProps req tys = .error e := by
  obtain ⟨p, rq, ty, rf, ao, an⟩ := d
  simp only [SchemaNode.required] at hreq
  simp only [SchemaNode.ref] at href
  subst hreq
  subst href
  simp [allOfMergeF, SchemaNode.props, SchemaNode.required, SchemaNode.ref, hl, hg]

theorem allOfMergeF_cons_plain (defs : Defs) (gp gpt)
    (d : SchemaNode) (rest : List SchemaNode) (outProps req tys)
    (hreq : d.required = none) (href : d.ref = none) :
    allOfMergeF defs gp gpt (d :: rest) outProps req tys =
      allOfMergeF defs gp gpt rest (mergePropsOpt outProps d.props) req tys := by
  obtain ⟨p, rq, ty, rf, ao, an⟩ := d
  simp only [SchemaNode.required] at hreq
  simp only [SchemaNode.ref] at href
  subst hreq
  subst href
  rfl

/-- Running the loop over a concatenation runs the first block, then
feeds its accumulators to the second block. -/
theorem allOfMergeF_append (defs : Defs) (gp gpt)
    (e1 e2 : List SchemaNode) (outProps req tys) :
    allOfMergeF defs gp gpt (e1 ++ e2) outProps req tys =
      match allOfMergeF defs gp gpt e1 outProps req tys with
      | .ok (a, b, c) => allOfMergeF defs gp gpt e2 a b c
      | .error e => .error e := by
  induction e1 generalizing outProps req tys with
  | nil => rfl
  | cons d rest ih =>
    cases hreq : d.required with
    | some names =>
      cases har : addRequired (fun p => gpt p d) names req tys with
      | error e =>
        rw [List.cons_append,
          allOfMergeF_cons_required_err defs gp gpt d (rest ++ e2) _ _ _ names e hreq har,
          allOfMergeF_cons_required_err defs gp gpt d rest _ _ _ names e hreq har]
      | ok rt =>
        obtain ⟨req1, tys1⟩ := rt
        rw [List.cons_append,
          allOfMergeF_cons_required_ok defs gp gpt d (rest ++ e2) _ _ _ names req1 tys1 hreq har,
          allOfMergeF_cons_required_ok defs gp gpt d rest _ _ _ names req1 tys1 hreq har]
        exact ih _ req1 tys1
    | none =>
      cases href : d.ref with
      | some r =>
        cases hl : lookupDef defs (refName r) with
        | none =>
          rw [List.cons_append,
            allOfMergeF_cons_ref_missing defs gp gpt d (rest ++ e2) _ _ _ r hreq href hl,
            allOfMergeF_cons_ref_missing defs gp gpt d rest _ _ _ r hreq href hl]
        | some s2 =>
          cases hg : gp s2 with
          | error e =>
            rw [List.cons_append,
              allOfMergeF_cons_ref_err defs gp gpt d (rest ++ e2) _ _ _ r s2 e hreq href hl hg,
              allOfMergeF_cons_ref_err defs gp gpt d rest _ _ _ r s2 e hreq href hl hg]
          | ok o =>
            cases o with
            | none =>
              rw [List.cons_append,
                allOfMergeF_cons_ref_unpack defs gp gpt d (rest ++ e2) _ _ _ r s2 hreq href hl hg,
                allOfMergeF_cons_ref_unpack defs gp gpt d rest _ _ _ r s2 hreq href hl hg]
            | some trip =>
              obtain ⟨tps, treq, ttys⟩ := trip
              rw [List.cons_append,
                allOfMergeF_cons_ref_ok defs gp gpt d (rest ++ e2) _ _ _ r s2 tps treq ttys hreq href hl hg,
                allOfMergeF_cons_ref_ok defs gp gpt d rest _ _ _ r s2 tps treq ttys hreq href hl hg]
              exact ih _ _ _
      | none =>
        rw [List.cons_append, allOfMergeF_cons_plain defs gp gpt d (rest ++ e2) _ _ _ hreq href,
          allOfMergeF_cons_plain defs gp gpt d rest _ _ _ hreq href]
        exact ih _ req tys

/-- A property name already bound in the accumulator keeps its binding
through the whole `allOf` loop: later entries never overwrite it. -/
theorem allOfMergeF_fww (defs : Defs) (gp gpt)
    (entries : List SchemaNode) (outProps req tys ps rs ts)
    (h : allOfMergeF defs gp gpt entries outProps req tys = .ok (ps, rs, ts)) :
    ∀ k, hasKey outProps k = true → lookupProp ps k = lookupProp outProps k := by
  induction entries generalizing outProps req tys with
  | nil =>
    rw [allOfMergeF_nil] at h
    have hps : ps = outProps := by
      have := Except.ok.inj h
      simpa using (congrArg (fun x => x.1) this).symm
    intro k _
    rw [hps]
  | cons d rest ih =>
    intro k hk
    cases hreq : d.required with
    | some names =>
      cases har : addRequired (fun p => gpt p d) names req tys with
      | error e =>
        rw [allOfMergeF_cons_required_err defs gp gpt d rest _ _ _ names e hreq har] at h
        exact absurd h (by simp)
      | ok rt =>
        obtain ⟨req1, tys1⟩ := rt
        rw [allOfMergeF_cons_required_ok defs gp gpt d rest _ _ _ names req1 tys1 hreq har] at h
        have := ih _ req1 tys1 h k (hasKey_mergePropsOpt _ _ _ hk)
        rw [this, lookupProp_mergePropsOpt _ _ _ hk]
    | none =>
      cases href : d.ref with
      | some r =>
        cases hl : lookupDef defs (refName r) with
        | none =>
          rw [allOfMergeF_cons_ref_missing defs gp gpt d rest _ _ _ r hreq href hl] at h
          exact absurd h (by simp)
        | some s2 =>
          cases hg : gp s2 with
          | error e =>
            rw [allOfMergeF_cons_ref_err defs gp gpt d rest _ _ _ r s2 e hreq href hl hg] at h
            exact absurd h (by simp)
          | ok o =>
            cases o with
            | none =>
              rw [allOfMergeF_cons_ref_unpack defs gp gpt d rest _ _ _ r s2 hreq href hl hg] at h
              exact absurd h (by simp)
            | some trip =>
              obtain ⟨tps, treq, ttys⟩ := trip
              rw [allOfMergeF_cons_ref_ok defs gp gpt d rest _ _ _ r s2 tps treq ttys hreq href hl hg] at h
              have hk1 : hasKey (mergePropsOpt outProps d.props) k = true :=
                hasKey_mergePropsOpt _ _ _ hk
              have hk2 : hasKey (mergeProps (mergePropsOpt outProps d.props) tps) k = true :=
                hasKey_mergeProps _ _ _ hk1
              have := ih _ _ _ h k hk2
              rw [this, lookupProp_mergeProps _ _ _ hk1,
                lookupProp_mergePropsOpt _ _ _ hk]
      | none =>
        rw [allOfMergeF_cons_plain defs gp gpt d rest _ _ _ hreq href] at h
        have := ih _ req tys h k (hasKey_mergePropsOpt _ _ _ hk)
        rw [this, lookupProp_mergePropsOpt _ _ _ hk]

/-- The required-name union only appends: the incoming list is a prefix
of the resulting one (first-seen order is preserved). -/
theorem allOfMergeF_req_extends (defs : Defs) (gp gpt)
    (entries : List SchemaNode) (outProps req tys ps rs ts)
    (h : allOfMergeF defs gp gpt entries outProps req tys = .ok (ps, rs, ts)) :
    ∃ t, rs = req ++ t := by
  induction entries generalizing outProps req tys with
  | nil =>
    rw [allOfMergeF_nil] at h
    have := Except.ok.inj h
    exact ⟨[], by simpa using (congrArg (fun x => x.2.1) this).symm⟩
  | cons d rest ih =>
    cases hreq : d.required with
    | some names =>
      cases har : addRequired (fun p => gpt p d) names req tys with
      | error e =>
        rw [allOfMergeF_cons_required_err defs gp gpt d rest _ _ _ names e hreq har] at h
        exact absurd h (by simp)
      | ok rt =>
        obtain ⟨req1, tys1⟩ := rt
        rw [allOfMergeF_cons_required_ok defs gp gpt d rest _ _ _ names req1 tys1 hreq har] at h
        obtain ⟨u, hu⟩ := ih _ req1 tys1 h
        obtain ⟨w, hw⟩ := addRequired_spec _ names req req1 tys tys1 har
        exact ⟨w ++ u, by rw [hu, hw, List.append_assoc]⟩
    | none =>
      cases href : d.ref with
      | some r =>
        cases hl : lookupDef defs (refName r) with
        | none =>
          rw [allOfMergeF_cons_ref_missing defs gp gpt d rest _ _ _ r hreq href hl] at h
          exact absurd h (by simp)
        | some s2 =>
          cases hg : gp s2 with
          | error e =>
            rw [allOfMergeF_cons_ref_err defs gp gpt d rest _ _ _ r s2 e hreq href hl hg] at h
            exact absurd h (by simp)
          | ok o =>
            cases o with
            | none =>
              rw [allOfMergeF_cons_ref_unpack defs gp gpt d rest _ _ _ r s2 hreq href hl hg] at h
              exact absurd h (by simp)
            | some trip =>
              obtain ⟨tps, treq, ttys⟩ := trip
              rw [allOfMergeF_cons_ref_ok defs gp gpt d rest _ _ _ r s2 tps treq ttys hreq href hl hg] at h
              obtain ⟨u, hu⟩ := ih _ _ _ h
              obtain ⟨w, hw⟩ := addRequiredPairs_spec (treq.zip ttys) req tys
              exact ⟨w ++ u, by rw [hu, hw, List.append_assoc]⟩
      | none =>
        rw [allOfMergeF_cons_plain defs gp gpt d rest _ _ _ hreq href] at h
        exact ih _ req tys h

/-- The required-name union never introduces a duplicate. -/
theorem allOfMergeF_req_nodup (defs : Defs) (gp gpt)
    (entries : List SchemaNode) (outProps req tys ps rs ts)
    (h : allOfMergeF defs gp gpt entries outProps req tys = .ok (ps, rs, ts))
    (hn : req.Nodup) : rs.Nodup := by
  induction entries generalizing outProps req tys with
  | nil =>
    rw [allOfMergeF_nil] at h
    have hrs : rs = req := by
      have := Except.ok.inj h
      simpa using (congrArg (fun x => x.2.1) this).symm
    rw [hrs]; exact hn
  | cons d rest ih =>
    cases hreq : d.required with
    | some names =>
      cases har : addRequired (fun p => gpt p d) names req tys with
      | error e =>
        rw [allOfMergeF_cons_required_err defs gp gpt d rest _ _ _ names e hreq har] at h
        exact absurd h (by simp)
      | ok rt =>
        obtain ⟨req1, tys1⟩ := rt
        rw [allOfMergeF_cons_required_ok defs gp gpt d rest _ _ _ names req1 tys1 hreq har] at h
        exact ih _ req1 tys1 h (addRequired_nodup _ names req req1 tys tys1 har hn)
    | none =>
      cases href : d.ref with
      | some r =>
        cases hl : lookupDef defs (refName r) with
        | none =>
          rw [allOfMergeF_cons_ref_missing defs gp gpt d rest _ _ _ r hreq href hl] at h
          exact absurd h (by simp)
        | some s2 =>
          cases hg : gp s2 with
          | error e =>
            rw [allOfMergeF_cons_ref_err defs gp gpt d rest _ _ _ r s2 e hreq href hl hg] at h
            exact absurd h (by simp)
          | ok o =>
            cases o with
            | none =>
              rw [allOfMergeF_cons_ref_unpack defs gp gpt d rest _ _ _ r s2 hreq href hl hg] at h
              exact absurd h (by simp)
            | some trip =>
              obtain ⟨tps, treq, ttys⟩ := trip
              rw [allOfMergeF_cons_ref_ok defs gp gpt d rest _ _ _ r s2 tps treq ttys hreq href hl hg] at h
              exact ih _ _ _ h (addRequiredPairs_nodup (treq.zip ttys) req tys hn)
      | none =>
        rw [allOfMergeF_cons_plain defs gp gpt d rest _ _ _ hreq href] at h
        exact ih _ req tys h hn

/-! Step equations for `get_type`, by the shape of the node. -/

theorem get_type_props (defs : Defs) (fuel : Nat) (s : SchemaNode)
    (h : s.props.isSome) : get_type defs (fuel + 1) s = .ok .emptyObj := by
  simp [get_type, h]

theorem get_type_typed (defs : Defs) (fuel : Nat) (s : SchemaNode) (t : String)
    (hp : s.props = none) (ht : s.type = some t) :
    get_type defs (fuel + 1) s = .ok (translate_type t) := by
  simp [get_type, hp, ht]

theorem get_type_anyOf (defs : Defs) (fuel : Nat) (s : SchemaNode) (alts : List SchemaNode)
    (hp : s.props = none) (ht : s.type = none) (ha : s.anyOf = some alts) :
    get_type defs (fuel + 1) s = .ok ((firstNonNullType alts).getD .emptyObj) := by
  simp [get_type, hp, ht, ha]

theorem get_type_ref (defs : Defs) (fuel : Nat) (s : SchemaNode) (r : String) (s2 : SchemaNode)
    (hp : s.props = none) (ht : s.type = none) (ha : s.anyOf = none)
    (hr : s.ref = some r) (hl : lookupDef defs (refName r) = some s2) :
    get_type defs (fuel + 1) s = get_type defs fuel s2 := by
  simp [get_type, hp, ht, ha, hr, hl]

theorem get_type_ref_missing (defs : Defs) (fuel : Nat) (s : SchemaNode) (r : String)
    (hp : s.props = none) (ht : s.type = none) (ha : s.anyOf = none)
    (hr : s.ref = some r) (hl : lookupDef defs (refName r) = none) :
    get_type defs (fuel + 1) s = .error (refName r) := by
  simp [get_type, hp, ht, ha, hr, hl]

theorem get_type_plain (defs : Defs) (fuel : Nat) (s : SchemaNode)
    (hp : s.props = none) (ht : s.type = none) (ha : s.anyOf = none)
    (hr : s.ref = none) : get_type defs (fuel + 1) s = .ok .emptyObj := by
  simp [get_type, hp, ht, ha, hr]

/-! Lemmas about the `anyOf` scan. -/

theorem firstNonNullType_cons_hit (d : SchemaNode) (post : List SchemaNode) (t : String)
    (hd : d.type = some t) (ht : t ≠ "null") :
    firstNonNullType (d :: post) = some (translate_type t) := by
  simp [firstNonNullType, hd, ht]

theorem firstNonNullType_append_skip (pre l : List SchemaNode)
    (h : ∀ d ∈ pre, d.type = none ∨ d.type = some "null") :
    firstNonNullType (pre ++ l) = firstNonNullType l := by
  induction pre with
  | nil => rfl
  | cons d rest ih =>
    rcases h d (by simp) with hd | hd
    · rw [List.cons_append]
      simp only [firstNonNullType, hd]
      exact ih (fun d' hm => h d' (by simp [hm]))
    · rw [List.cons_append]
      have hstep : firstNonNullType (d :: (rest ++ l)) = firstNonNullType (rest ++ l) := by
        simp [firstNonNullType, hd]
      rw [hstep]
      exact ih (fun d' hm => h d' (by simp [hm]))

theorem firstNonNullType_all_skip (l : List SchemaNode)
    (h : ∀ d ∈ l, d.type = none ∨ d.type = some "null") :
    firstNonNullType l = none := by
  have := firstNonNullType_append_skip l [] h
  simpa using this

/-! Step equations for the type-chain walk. -/

theorem get_ndrm_type_base (defs : Defs) (fuel : Nat) (name : String) (s : SchemaNode)
    (ha : s.allOf = none) (hr : s.ref = none) :
    get_ndrm_type defs (fuel + 1) name s = .ok ["ndrm:" ++ name] := by
  simp [get_ndrm_type, ha, hr]

theorem get_ndrm_type_ref (defs : Defs) (fuel : Nat) (name : String) (s : SchemaNode)
    (r : String) (s2 : SchemaNode)
    (ha : s.allOf = none) (hr : s.ref = some r)
    (hl : lookupDef defs (refName r) = some s2) :
    get_ndrm_type defs (fuel + 1) name s =
      (get_ndrm_type defs fuel (refName r) s2).map (fun cs => ("ndrm:" ++ name) :: cs) := by
  simp [get_ndrm_type, ha, hr, hl]

theorem get_ndrm_type_ref_missing (defs : Defs) (fuel : Nat) (name : String) (s : SchemaNode)
    (r : String)
    (ha : s.allOf = none) (hr : s.ref = some r)
    (hl : lookupDef defs (refName r) = none) :
    get_ndrm_type defs (fuel + 1) name s = .error (refName r) := by
  simp [get_ndrm_type, ha, hr, hl]

theorem get_ndrm_type_allOf (defs : Defs) (fuel : Nat) (name : String) (s : SchemaNode)
    (entries : List SchemaNode) (ha : s.allOf = some entries) :
    get_ndrm_type defs (fuel + 1) name s =
      (ndrmAllF (fun n t => get_ndrm_type defs fuel n t) defs entries).map
        (fun cs => ("ndrm:" ++ name) :: cs) := by
  simp [get_ndrm_type, ha]

theorem ndrmAllF_cons_skip (chain) (defs : Defs) (d : SchemaNode) (rest : List SchemaNode)
    (h : d.ref = none) :
    ndrmAllF chain defs (d :: rest) = ndrmAllF chain defs rest := by
  obtain ⟨p, rq, ty, rf, ao, an⟩ := d
  simp only [SchemaNode.ref] at h
  subst h
  rfl

theorem ndrmAllF_cons_ref_ok (chain) (defs : Defs) (d : SchemaNode) (rest : List SchemaNode)
    (r : String) (s2 : SchemaNode) (c : List String)
    (href : d.ref = some r) (hl : lookupDef defs (refName r) = some s2)
    (hc : chain (refName r) s2 = .ok c) :
    ndrmAllF chain defs (d :: rest) = (ndrmAllF chain defs rest).map (fun cs => c ++ cs) := by
  obtain ⟨p, rq, ty, rf, ao, an⟩ := d
  simp only [SchemaNode.ref] at href
  subst href
  simp [ndrmAllF, SchemaNode.ref, hl, hc]

theorem ndrmAllF_cons_ref_missing (chain) (defs : Defs) (d : SchemaNode)
    (rest : List SchemaNode) (r : String)
    (href : d.ref = some r) (hl : lookupDef defs (refName r) = none) :
    ndrmAllF chain defs (d :: rest) = .error (refName r) := by
  obtain ⟨p, rq, ty, rf, ao, an⟩ := d
  simp only [SchemaNode.ref] at href
  subst href
  simp [ndrmAllF, SchemaNode.ref, hl]

theorem ndrmAllF_cons_ref_err (chain) (defs : Defs) (d : SchemaNode)
    (rest : List SchemaNode) (r : String) (s2 : SchemaNode) (e : String)
    (href : d.ref = some r) (hl : lookupDef defs (refName r) = some s2)
    (hc : chain (refName r) s2 = .error e) :
    ndrmAllF chain defs (d :: rest) = .error e := by
  obtain ⟨p, rq, ty, rf, ao, an⟩ := d
  simp only [SchemaNode.ref] at href
  subst href
  simp [ndrmAllF, SchemaNode.ref, hl, hc]

/-- Chains of a concatenation of `allOf` entries: the first block's
chains are appended in full before the second block's. -/
theorem ndrmAllF_append (chain) (defs : Defs) (e1 e2 : List SchemaNode) :
    ndrmAllF chain defs (e1 ++ e2) =
      match ndrmAllF chain defs e1 with
      | .ok c1 => (ndrmAllF chain defs e2).map (fun cs => c1 ++ cs)
      | .error e => .error e := by
  induction e1 with
  | nil =>
    cases h2 : ndrmAllF chain defs e2 with
    | ok c => simp [ndrmAllF, h2, Except.map]
    | error e => simp [ndrmAllF, h2, Except.map]
  | cons d rest ih =>
    cases href : d.ref with
    | none =>
      rw [List.cons_append, ndrmAllF_cons_skip chain defs d (rest ++ e2) href,
        ndrmAllF_cons_skip chain defs d rest href, ih]
    | some r =>
      cases hl : lookupDef defs (refName r) with
      | none =>
        rw [List.cons_append, ndrmAllF_cons_ref_missing chain defs d (rest ++ e2) r href hl,
          ndrmAllF_cons_ref_missing chain defs d rest r href hl]
      | some s2 =>
        cases hc : chain (refName r) s2 with
        | error e =>
          rw [List.cons_append, ndrmAllF_cons_ref_err chain defs d (rest ++ e2) r s2 e href hl hc,
            ndrmAllF_cons_ref_err chain defs d rest r s2 e href hl hc]
        | ok c =>
          rw [List.cons_append, ndrmAllF_cons_ref_ok chain defs d (rest ++ e2) r s2 c href hl hc,
            ndrmAllF_cons_ref_ok chain defs d rest r s2 c href hl hc, ih]
          cases ndrmAllF chain defs rest with
          | error e => rfl
          | ok c1 =>
            cases ndrmAllF chain defs e2 with
            | error e => rfl
            | ok cs => simp [Except.map, List.append_assoc]

/-! Step equations for `_get_properties`, by the shape of the node. -/

theorem get_properties_nonobj (defs : Defs) (fuel : Nat) (s : SchemaNode) (v : Value)
    (hgt : get_type defs fuel s = .ok v) (hv : v ≠ .emptyObj) :
    get_properties defs (fuel + 1) s = .ok (some ([], [], [])) := by
  simp [get_properties, hgt, hv]

theorem get_properties_type_err (defs : Defs) (fuel : Nat) (s : SchemaNode) (e : String)
    (hgt : get_type defs fuel s = .error e) :
    get_properties defs (fuel + 1) s = .error e := by
  simp [get_properties, hgt]

theorem get_properties_direct (defs : Defs) (fuel : Nat) (s : SchemaNode)
    (ps : List (String × SchemaNode)) (reqs : List String)
    (hgt : get_type defs fuel s = .ok .emptyObj)
    (hp : s.props = some ps) (hr : s.required = some reqs) :
    get_properties defs (fuel + 1) s =
      match reqListTypes (fun q => get_prop_type defs fuel q s) reqs with
      | .ok tys => .ok (some (ps, reqs, tys))
      | .error e => .error e := by
  simp [get_properties, hgt, hp, hr]

theorem get_properties_direct_noreq (defs : Defs) (fuel : Nat) (s : SchemaNode)
    (ps : List (String × SchemaNode))
    (hgt : get_type defs fuel s = .ok .emptyObj)
    (hp : s.props = some ps) (hr : s.required = none) :
    get_properties defs (fuel + 1) s = .ok (some (ps, [], [])) := by
  simp [get_properties, hgt, hp, hr]

theorem get_properties_ref (defs : Defs) (fuel : Nat) (s : SchemaNode)
    (r : String) (s2 : SchemaNode)
    (hgt : get_type defs fuel s = .ok .emptyObj)
    (hp : s.props = none) (hr : s.ref = some r)
    (hl : lookupDef defs (refName r) = some s2) :
    get_properties defs (fuel + 1) s = get_properties defs fuel s2 := by
  simp [get_properties, hgt, hp, hr, hl]

theorem get_properties_ref_missing (defs : Defs) (fuel : Nat) (s : SchemaNode)
    (r : String)
    (hgt : get_type defs fuel s = .ok .emptyObj)
    (hp : s.props = none) (hr : s.ref = some r)
    (hl : lookupDef defs (refName r) = none) :
    get_properties defs (fuel + 1) s = .error (refName r) := by
  simp [get_properties, hgt, hp, hr, hl]

theorem get_properties_allOf (defs : Defs) (fuel : Nat) (s : SchemaNode)
    (entries : List SchemaNode)
    (hgt : get_type defs fuel s = .ok .emptyObj)
    (hp : s.props = none) (hr : s.ref = none) (ha : s.allOf = some entries) :
    get_properties defs (fuel + 1) s =
      match allOfMergeF defs (fun t => get_properties defs fuel t)
          (fun p d => get_prop_type defs fuel p d) entries [] [] [] with
      | .ok res => .ok (some res)
      | .error e => .error e := by
  simp [get_properties, hgt, hp, hr, ha]

theorem get_properties_plain (defs : Defs) (fuel : Nat) (s : SchemaNode)
    (hgt : get_type defs fuel s = .ok .emptyObj)
    (hp : s.props = none) (hr : s.ref = none) (ha : s.allOf = none) :
    get_properties defs (fuel + 1) s = .ok none := by
  simp [get_properties, hgt, hp, hr, ha]

/-- `reqListTypes` is `mapM`: each required name's default is obtained
by applying the property-default function to that name, in order. -/
theorem reqListTypes_eq_mapM (gpt : String → Except String Value) (l : List String) :
    reqListTypes gpt l = l.mapM gpt := by
  induction l with
  | nil => rfl
  | cons q rest ih =>
    rw [List.mapM_cons]
    cases hg : gpt q with
    | error e =>
      simp only [reqListTypes, hg]
      rfl
    | ok t =>
      simp only [reqListTypes, hg, ih]
      cases hm : rest.mapM gpt with
      | error e => simp [hm]; rfl
      | ok ts => simp [hm]; rfl

/-- What the append-if-absent union appends: a block of (name, default)
pairs in which each default was produced by the supplied function on its
name. -/
theorem addRequired_pairs (gpt : String → Except String Value)
    (names : List String) (req req2 : List String) (tys tys2 : List Value)
    (h : addRequired gpt names req tys = .ok (req2, tys2)) :
    ∃ pairs : List (String × Value),
      req2 = req ++ pairs.map Prod.fst ∧ tys2 = tys ++ pairs.map Prod.snd ∧
      ∀ pt ∈ pairs, gpt pt.1 = .ok pt.2 := by
  induction names generalizing req tys with
  | nil =>
    simp only [addRequired] at h
    obtain ⟨h1, h2⟩ := Prod.mk.injEq .. ▸ Except.ok.inj h
    exact ⟨[], by simp [h1.symm], by simp [h2.symm], by simp⟩
  | cons p rest ih =>
    simp only [addRequired] at h
    by_cases hc : req.contains p = true
    · rw [if_pos hc] at h
      exact ih req tys h
    · rw [if_neg hc] at h
      cases hg : gpt p with
      | error e => rw [hg] at h; exact absurd h (by simp)
      | ok t =>
        rw [hg] at h
        obtain ⟨pairs, h1, h2, h3⟩ := ih (req ++ [p]) (tys ++ [t]) h
        refine ⟨(p, t) :: pairs, ?_, ?_, ?_⟩
        · rw [h1, List.map_cons, List.append_assoc]; rfl
        · rw [h2, List.map_cons, List.append_assoc]; rfl
        · intro pt hm
          rcases List.mem_cons.mp hm with hm | hm
          · rw [hm]; exact hg
          · exact h3 pt hm

/-- Discharged form of `allOfMergeF_append`: when the first block
succeeds, the loop continues on the second block from its accumulators. -/
theorem allOfMergeF_append_ok (defs : Defs) (gp gpt) (e1 e2 : List SchemaNode)
    (outProps req tys) (a : List (String × SchemaNode)) (b : List String) (c : List Value)
    (h1 : allOfMergeF defs gp gpt e1 outProps req tys = .ok (a, b, c)) :
    allOfMergeF defs gp gpt (e1 ++ e2) outProps req tys =
      allOfMergeF defs gp gpt e2 a b c := by
  rw [allOfMergeF_append, h1]

theorem get_properties_allOf_ok (defs : Defs) (fuel : Nat) (s : SchemaNode)
    (entries : List SchemaNode)
    (res : List (String × SchemaNode) × List String × List Value)
    (hgt : get_type defs fuel s = .ok .emptyObj)
    (hp : s.props = none) (hr : s.ref = none) (ha : s.allOf = some entries)
    (ham : allOfMergeF defs (fun t => get_properties defs fuel t)
        (fun p d => get_prop_type defs fuel p d) entries [] [] [] = .ok res) :
    get_properties defs (fuel + 1) s = .ok (some res) := by
  rw [get_properties_allOf defs fuel s entries hgt hp hr ha, ham]

theorem get_properties_allOf_err (defs : Defs) (fuel : Nat) (s : SchemaNode)
    (entries : List SchemaNode) (e : String)
    (hgt : get_type defs fuel s = .ok .emptyObj)
    (hp : s.props = none) (hr : s.ref = none) (ha : s.allOf = some entries)
    (ham : allOfMergeF defs (fun t => get_properties defs fuel t)
        (fun p d => get_prop_type defs fuel p d) entries [] [] [] = .error e) :
    get_properties defs (fuel + 1) s = .error e := by
  rw [get_properties_allOf defs fuel s entries hgt hp hr ha, ham]

theorem get_properties_direct_ok (defs : Defs) (fuel : Nat) (s : SchemaNode)
    (ps : List (String × SchemaNode)) (reqs : List String) (tys : List Value)
    (hgt : get_type defs fuel s = .ok .emptyObj)
    (hp : s.props = some ps) (hr : s.required = some reqs)
    (htys : reqListTypes (fun q => get_prop_type defs fuel q s) reqs = .ok tys) :
    get_properties defs (fuel + 1) s = .ok (some (ps, reqs, tys)) := by
  rw [get_properties_direct defs fuel s ps reqs hgt hp hr, htys]

/-- C1: for every object schema node carrying `allOf`, the properties
operation merges each entry's properties into an accumulator with
first-writer-wins precedence (a property name contributed by an earlier
entry — here: by any prefix `e1` of the entry list — is never
overwritten by a later entry) and unions the entries' required name
lists by appending each name only if absent, preserving first-seen order
(the prefix's required list is a prefix of the final one), so the merged
required list contains no duplicates. -/
theorem claim_C1_allof_merge (defs : Defs) (fuel : Nat) (s : SchemaNode)
    (entries e1 e2 : List SchemaNode)
    (ps1 ps : List (String × SchemaNode)) (rs1 rs : List String) (ts1 ts : List Value)
    (hp : s.props = none) (hr : s.ref = none) (ha : s.allOf = some entries)
    (hgt : get_type defs fuel s = .ok .emptyObj)
    (hsplit : entries = e1 ++ e2)
    (h1 : allOfMergeF defs (fun t => get_properties defs fuel t)
        (fun p d => get_prop_type defs fuel p d) e1 [] [] [] = .ok (ps1, rs1, ts1))
    (h : get_properties defs (fuel + 1) s = .ok (some (ps, rs, ts))) :
    (∀ k, hasKey ps1 k = true → lookupProp ps k = lookupProp ps1 k) ∧
    (∃ t, rs = rs1 ++ t) ∧ rs.Nodup := by
  cases ham : allOfMergeF defs (fun t => get_properties defs fuel t)
      (fun p d => get_prop_type defs fuel p d) entries [] [] [] with
  | error e =>
    rw [get_properties_allOf_err defs fuel s entries e hgt hp hr ha ham] at h
    exact absurd h (by simp)
  | ok res =>
    rw [get_properties_allOf_ok defs fuel s entries res hgt hp hr ha ham] at h
    have hres : res = (ps, rs, ts) := by
      have := Except.ok.inj h
      simpa using this
    rw [hres, hsplit,
      allOfMergeF_append_ok defs _ _ e1 e2 [] [] [] ps1 rs1 ts1 h1] at ham
    refine ⟨fun k hk => allOfMergeF_fww defs _ _ e2 ps1 rs1 ts1 ps rs ts ham k hk,
      allOfMergeF_req_extends defs _ _ e2 ps1 rs1 ts1 ps rs ts ham, ?_⟩
    have hn1 : rs1.Nodup :=
      allOfMergeF_req_nodup defs _ _ e1 [] [] [] ps1 rs1 ts1 h1 List.nodup_nil
    exact allOfMergeF_req_nodup defs _ _ e2 ps1 rs1 ts1 ps rs ts ham hn1

/-- Witness for C1 at the spec's scenario `allOf: [A, B]` with
`A.required = ["x"]`, `B.required = ["x", "y"]` and both declaring a
property `x`: the merge keeps `A`'s `x`, the required union is
`["x", "y"]` with no duplicate. -/
theorem claim_C1_allof_merge_witness :
    (∀ k, hasKey [("x", nodeS "string")] k = true →
      lookupProp [("x", nodeS "string")] k = lookupProp [("x", nodeS "string")] k) ∧
    (∃ t, ["x", "y"] = ["x"] ++ t) ∧ (["x", "y"] : List String).Nodup :=
  claim_C1_allof_merge [] 4 abAllOfNode [abANode, abBNode] [abANode] [abBNode]
    [("x", nodeS "string")] [("x", nodeS "string")] ["x"] ["x", "y"]
    [.emptyStr] [.emptyStr, .emptyStr] rfl rfl rfl rfl rfl rfl rfl

/-- C2: the type chain starts with `ndrm:<name>`; with `allOf`, every
entry carrying `$ref` contributes its referenced definition's full chain
in listed order, each appended completely before the next entry
(concatenation, no deduplication — the diamond example keeps `ndrm:C`
twice); with `$ref` alone, the referenced definition's chain is
appended; with neither, the chain is just the node's own name; the
acyclic chain `Foo -> Bar -> Baz` yields
`["ndrm:Foo", "ndrm:Bar", "ndrm:Baz"]`. -/
theorem claim_C2_type_chain :
    (∀ (defs : Defs) (fuel : Nat) (name : String) (s : SchemaNode),
      s.allOf = none → s.ref = none →
      get_ndrm_type defs (fuel + 1) name s = .ok ["ndrm:" ++ name]) ∧
    (∀ (defs : Defs) (fuel : Nat) (name : String) (s : SchemaNode)
      (r : String) (s2 : SchemaNode),
      s.allOf = none → s.ref = some r → lookupDef defs (refName r) = some s2 →
      get_ndrm_type defs (fuel + 1) name s =
        (get_ndrm_type defs fuel (refName r) s2).map (fun cs => ("ndrm:" ++ name) :: cs)) ∧
    (∀ (defs : Defs) (fuel : Nat) (name : String) (s : SchemaNode)
      (entries : List SchemaNode),
      s.allOf = some entries →
      get_ndrm_type defs (fuel + 1) name s =
        (ndrmAllF (fun n t => get_ndrm_type defs fuel n t) defs entries).map
          (fun cs => ("ndrm:" ++ name) :: cs)) ∧
    (∀ (chain : String → SchemaNode → Except String (List String)) (defs : Defs)
      (e1 e2 : List SchemaNode) (c1 : List String),
      ndrmAllF chain defs e1 = .ok c1 →
      ndrmAllF chain defs (e1 ++ e2) = (ndrmAllF chain defs e2).map (fun cs => c1 ++ cs)) ∧
    (∀ (chain : String → SchemaNode → Except String (List String)) (defs : Defs)
      (d : SchemaNode) (rest : List SchemaNode),
      d.ref = none → ndrmAllF chain defs (d :: rest) = ndrmAllF chain defs rest) ∧
    get_ndrm_type chainDefs 5 "Foo" fooNode = .ok ["ndrm:Foo", "ndrm:Bar", "ndrm:Baz"] ∧
    get_ndrm_type diaDefs 5 "Dia" diaNode =
      .ok ["ndrm:Dia", "ndrm:A", "ndrm:C", "ndrm:B", "ndrm:C"] := by
  refine ⟨?_, ?_, ?_, ?_, ?_, rfl, rfl⟩
  · exact fun defs fuel name s ha hr => get_ndrm_type_base defs fuel name s ha hr
  · exact fun defs fuel name s r s2 ha hr hl => get_ndrm_type_ref defs fuel name s r s2 ha hr hl
  · exact fun defs fuel name s entries ha => get_ndrm_type_allOf defs fuel name s entries ha
  · intro chain defs e1 e2 c1 h1
    rw [ndrmAllF_append, h1]
  · exact fun chain defs d rest h => ndrmAllF_cons_skip chain defs d rest h

/-- Witness for C2: a node with neither `allOf` nor `$ref` contributes
nothing beyond its own qualified name. -/
theorem claim_C2_type_chain_witness :
    get_ndrm_type [] 3 "Solo" emptyNode = .ok ["ndrm:Solo"] :=
  claim_C2_type_chain.1 [] 2 "Solo" emptyNode rfl rfl

/-- C3: a node without `properties` or `type` but with `anyOf` scans the
alternatives in order, skips every alternative whose `type` is the
literal `"null"` (or which lacks a `type`), returns the mapped default
of the first alternative carrying a non-null `type`, and returns the
empty mapping when no alternative carries an explicit `type` key. -/
theorem claim_C3_anyof_policy (defs : Defs) (fuel : Nat) (s : SchemaNode)
    (alts : List SchemaNode)
    (hp : s.props = none) (ht : s.type = none) (ha : s.anyOf = some alts) :
    (∀ (pre : List SchemaNode) (d : SchemaNode) (post : List SchemaNode) (t : String),
      alts = pre ++ d :: post →
      (∀ d2 ∈ pre, d2.type = none ∨ d2.type = some "null") →
      d.type = some t → t ≠ "null" →
      get_type defs (fuel + 1) s = .ok (translate_type t)) ∧
    ((∀ d2 ∈ alts, d2.type = none) → get_type defs (fuel + 1) s = .ok .emptyObj) := by
  constructor
  · intro pre d post t hsplit hskip hd ht2
    rw [get_type_anyOf defs fuel s alts hp ht ha, hsplit,
      firstNonNullType_append_skip pre (d :: post) hskip,
      firstNonNullType_cons_hit d post t hd ht2]
    rfl
  · intro hnone
    rw [get_type_anyOf defs fuel s alts hp ht ha,
      firstNonNullType_all_skip alts (fun d2 hm => Or.inl (hnone d2 hm))]
    rfl

/-- Witness for C3 at `anyOf: [{"type": "null"}, {"type": "string"}]`:
the null alternative is skipped and the string default is returned. -/
theorem claim_C3_anyof_policy_witness : get_type [] 3 anyNullStr = .ok .emptyStr := by
  have hskip : ∀ d2 ∈ [nodeS "null"], d2.type = none ∨ d2.type = some "null" := by
    intro d2 hm
    rw [List.mem_singleton] at hm
    subst hm
    exact Or.inr rfl
  exact (claim_C3_anyof_policy [] 2 anyNullStr [nodeS "null", nodeS "string"]
    rfl rfl rfl).1 [nodeS "null"] (nodeS "string") [] "string" rfl hskip rfl (by decide)

/-- C4: a node without `properties`, `$ref`, `allOf` or `anyOf` defaults
to the empty sequence for `type: "array"`, the empty string for
`type: "string"`, and the empty mapping for any other or missing `type`;
every such node yields an `.ok` value (silent degrade, never an
error). -/
theorem claim_C4_primitive_defaults (defs : Defs) (fuel : Nat) (s : SchemaNode)
    (hp : s.props = none) (ha : s.anyOf = none) (hr : s.ref = none) :
    (s.type = some "array" → get_type defs (fuel + 1) s = .ok .emptyArr) ∧
    (s.type = some "string" → get_type defs (fuel + 1) s = .ok .emptyStr) ∧
    (∀ t, s.type = some t → t ≠ "array" → t ≠ "string" →
      get_type defs (fuel + 1) s = .ok .emptyObj) ∧
    (s.type = none → get_type defs (fuel + 1) s = .ok .emptyObj) := by
  refine ⟨?_, ?_, ?_, ?_⟩
  · intro ht
    rw [get_type_typed defs fuel s "array" hp ht]
    rfl
  · intro ht
    rw [get_type_typed defs fuel s "string" hp ht]
    rfl
  · intro t ht ht1 ht2
    rw [get_type_typed defs fuel s t hp ht]
    simp [translate_type, ht1, ht2]
  · intro ht
    exact get_type_plain defs fuel s hp ht ha hr

/-- Witness for C4 at `{"type": "array"}`. -/
theorem claim_C4_primitive_defaults_witness :
    get_type [] 3 (nodeS "array") = .ok .emptyArr :=
  (claim_C4_primitive_defaults [] 2 (nodeS "array") rfl rfl rfl).1 rfl

/-- C5 counterexample: an `allOf` entry carrying both `$ref` and
`required` never resolves its reference.  Here the single entry refers
to `P`, which declares and requires property `x`, yet the merged result
has an empty property map and required list `["y"]` only — `P` was not
merged, refuting the claim's "regardless of which other keys the entry
carries". -/
theorem claim_C5_counterexample :
    refReqEntry.ref = some "#/definitions/P" ∧
    refReqEntry.required = some ["y"] ∧
    lookupDef refReqDefs (refName "#/definitions/P") = some pDefNode ∧
    pDefNode.props = some [("x", nodeS "string")] ∧
    pDefNode.required = some ["x"] ∧
    get_properties refReqDefs 5 refReqAllOfNode = .ok (some ([], ["y"], [.emptyStr])) :=
  ⟨rfl, rfl, rfl, rfl, rfl, rfl⟩

/-- C5 amended: an `allOf` entry that carries `$ref` and does **not**
carry `required` is resolved recursively and its triple is merged under
the first-writer-wins / append-if-absent rules; an entry that carries
`required` is processed by the required-union alone and its `$ref` (if
any) is ignored. -/
theorem claim_C5_ref_entries_resolved :
    (∀ (defs : Defs) (gp : SchemaNode →
        Except String (Option (List (String × SchemaNode) × List String × List Value)))
      (gpt : String → SchemaNode → Except String Value)
      (d : SchemaNode) (rest : List SchemaNode)
      (acc : List (String × SchemaNode)) (req : List String) (tys : List Value)
      (r : String) (s2 : SchemaNode) (tps : List (String × SchemaNode))
      (treq : List String) (ttys : List Value),
      d.required = none → d.ref = some r →
      lookupDef defs (refName r) = some s2 →
      gp s2 = .ok (some (tps, treq, ttys)) →
      allOfMergeF defs gp gpt (d :: rest) acc req tys =
        allOfMergeF defs gp gpt rest
          (mergeProps (mergePropsOpt acc d.props) tps)
          (addRequiredPairs (treq.zip ttys) req tys).1
          (addRequiredPairs (treq.zip ttys) req tys).2) ∧
    (∀ (defs : Defs) (gp : SchemaNode →
        Except String (Option (List (String × SchemaNode) × List String × List Value)))
      (gpt : String → SchemaNode → Except String Value)
      (d : SchemaNode) (rest : List SchemaNode)
      (acc : List (String × SchemaNode)) (req : List String) (tys : List Value)
      (names req1 : List String) (tys1 : List Value),
      d.required = some names →
      addRequired (fun p => gpt p d) names req tys = .ok (req1, tys1) →
      allOfMergeF defs gp gpt (d :: rest) acc req tys =
        allOfMergeF defs gp gpt rest (mergePropsOpt acc d.props) req1 tys1) :=
  ⟨fun defs gp gpt d rest acc req tys r s2 tps treq ttys hreq href hl hg =>
    allOfMergeF_cons_ref_ok defs gp gpt d rest acc req tys r s2 tps treq ttys hreq href hl hg,
   fun defs gp gpt d rest acc req tys names req1 tys1 hreq har =>
    allOfMergeF_cons_required_ok defs gp gpt d rest acc req tys names req1 tys1 hreq har⟩

/-- Witness for the amended C5: a pure `$ref` entry (no `required`) to
`P` is resolved and `P`'s triple is merged. -/
theorem claim_C5_ref_entries_resolved_witness :
    allOfMergeF refReqDefs (fun t => get_properties refReqDefs 4 t)
      (fun p d => get_prop_type refReqDefs 4 p d)
      (nodeRef "#/definitions/P" :: []) [] [] [] =
    allOfMergeF refReqDefs (fun t => get_properties refReqDefs 4 t)
      (fun p d => get_prop_type refReqDefs 4 p d) []
      (mergeProps (mergePropsOpt [] (nodeRef "#/definitions/P").props)
        [("x", nodeS "string")])
      (addRequiredPairs (["x"].zip [Value.emptyStr]) [] []).1
      (addRequiredPairs (["x"].zip [Value.emptyStr]) [] []).2 :=
  claim_C5_ref_entries_resolved.1 refReqDefs
    (fun t => get_properties refReqDefs 4 t)
    (fun p d => get_prop_type refReqDefs 4 p d)
    (nodeRef "#/definitions/P") [] [] [] []
    "#/definitions/P" pDefNode [("x", nodeS "string")] ["x"] [Value.emptyStr]
    rfl rfl rfl rfl

/-- C6 counterexample: the defaults of required properties are not
`defaultValue` of the property's sub-schema.  For the required property
`p` with inline-object sub-schema `{"properties": {}}`, the properties
operation records the Python `None` that `_get_prop_type` falls through
to, while `defaultValue` (`_get_type`) of the sub-schema itself is the
empty mapping. -/
theorem claim_C6_counterexample :
    inlineObjOwner.props = some [("p", inlineObjProp)] ∧
    inlineObjOwner.required = some ["p"] ∧
    get_properties [] 5 inlineObjOwner =
      .ok (some ([("p", inlineObjProp)], ["p"], [Value.pyNone])) ∧
    get_type [] 5 inlineObjProp = .ok Value.emptyObj ∧
    Value.pyNone ≠ Value.emptyObj :=
  ⟨rfl, rfl, rfl, rfl, by decide⟩

/-- C6 amended: the default of each required property is computed by
applying the property-default operation `_get_prop_type` to the required
name and the containing node — the node itself in the direct case
(in required-list order, `mapM`), the `allOf` entry in the composition
case (each newly added name paired with `_get_prop_type` of that name
against the entry) — and the `$ref` case delegates the whole triple
unchanged. -/
theorem claim_C6_required_defaults :
    (∀ (defs : Defs) (fuel : Nat) (s : SchemaNode)
      (ps : List (String × SchemaNode)) (reqs : List String) (tys : List Value),
      get_type defs fuel s = .ok .emptyObj →
      s.props = some ps → s.required = some reqs →
      reqListTypes (fun q => get_prop_type defs fuel q s) reqs = .ok tys →
      get_properties defs (fuel + 1) s = .ok (some (ps, reqs, tys)) ∧
        reqListTypes (fun q => get_prop_type defs fuel q s) reqs =
          reqs.mapM (fun q => get_prop_type defs fuel q s)) ∧
    (∀ (defs : Defs) (fuel : Nat) (s : SchemaNode) (r : String) (s2 : SchemaNode),
      get_type defs fuel s = .ok .emptyObj →
      s.props = none → s.ref = some r → lookupDef defs (refName r) = some s2 →
      get_properties defs (fuel + 1) s = get_properties defs fuel s2) ∧
    (∀ (gpt : String → Except String Value) (names req req2 : List String)
      (tys tys2 : List Value),
      addRequired gpt names req tys = .ok (req2, tys2) →
      ∃ pairs : List (String × Value),
        req2 = req ++ pairs.map Prod.fst ∧ tys2 = tys ++ pairs.map Prod.snd ∧
        ∀ pt ∈ pairs, gpt pt.1 = .ok pt.2) :=
  ⟨fun defs fuel s ps reqs tys hgt hp hr htys =>
    ⟨get_properties_direct_ok defs fuel s ps reqs tys hgt hp hr htys,
     reqListTypes_eq_mapM (fun q => get_prop_type defs fuel q s) reqs⟩,
   fun defs fuel s r s2 hgt hp hr hl =>
    get_properties_ref defs fuel s r s2 hgt hp hr hl,
   fun gpt names req req2 tys tys2 h =>
    addRequired_pairs gpt names req req2 tys tys2 h⟩

/-- Witness for the amended C6 at the spec's `Person` scenario: required
`["name"]` gets default `[""]` via `_get_prop_type`. -/
theorem claim_C6_required_defaults_witness :
    get_properties personDefs 5 personNode =
      .ok (some ([("name", nodeS "string"), ("age", nodeS "string")],
        ["name"], [Value.emptyStr])) ∧
      reqListTypes (fun q => get_prop_type personDefs 4 q personNode) ["name"] =
        ["name"].mapM (fun q => get_prop_type personDefs 4 q personNode) :=
  claim_C6_required_defaults.1 personDefs 4 personNode
    [("name", nodeS "string"), ("age", nodeS "string")] ["name"] [Value.emptyStr]
    rfl rfl rfl rfl

/-- C7, evaluated at the failing input: the property `p` has
`anyOf: [{"$ref": "#/definitions/X"}]` and `X` exists with string
default, but `_get_prop_type` raises `KeyError("$ref")` — it reads
`prop["$ref"]` (the property node, which has no `$ref` on this path)
instead of the alternative's `$ref` — rather than resolving `X`. -/
theorem claim_C7_anyof_ref_keyerror :
    anyRefProp.anyOf = some [nodeRef "#/definitions/X"] ∧
    (nodeRef "#/definitions/X").ref = some "#/definitions/X" ∧
    anyRefProp.ref = none ∧
    lookupDef xDefs (refName "#/definitions/X") = some (nodeS "string") ∧
    get_type xDefs 5 (nodeS "string") = .ok .emptyStr ∧
    get_prop_type xDefs 5 "p" anyRefOwner = .error "$ref" :=
  ⟨rfl, rfl, rfl, rfl, rfl, rfl⟩

/-- C8: a `$ref` whose target is not a key of the definitions mapping
makes both `_get_type` and `_get_properties` signal the key-not-found
error, which propagates; neither yields a silent empty result. -/
theorem claim_C8_unknown_definition :
    (∀ (defs : Defs) (fuel : Nat) (s : SchemaNode) (r : String),
      s.props = none → s.type = none → s.anyOf = none → s.ref = some r →
      lookupDef defs (refName r) = none →
      get_type defs (fuel + 1) s = .error (refName r)) ∧
    (∀ (defs : Defs) (fuel : Nat) (s : SchemaNode) (r : String),
      s.props = none → s.type = none → s.anyOf = none → s.ref = some r →
      lookupDef defs (refName r) = none →
      get_properties defs (fuel + 2) s = .error (refName r)) := by
  constructor
  · exact fun defs fuel s r hp ht ha hr hl =>
      get_type_ref_missing defs fuel s r hp ht ha hr hl
  · intro defs fuel s r hp ht ha hr hl
    exact get_properties_type_err defs (fuel + 1) s (refName r)
      (get_type_ref_missing defs fuel s r hp ht ha hr hl)

/-- Witness for C8 at the unknown definition name `Ghost`. -/
theorem claim_C8_unknown_definition_witness :
    get_type [] 3 ghostRef = .error "Ghost" ∧
    get_properties [] 4 ghostRef = .error "Ghost" :=
  ⟨claim_C8_unknown_definition.1 [] 2 ghostRef "#/definitions/Ghost" rfl rfl rfl rfl rfl,
   claim_C8_unknown_definition.2 [] 2 ghostRef "#/definitions/Ghost" rfl rfl rfl rfl rfl⟩

/-- C9: a property name absent from the schema's properties mapping —
including when the schema has no `properties` key at all — makes
`propertyType` return the empty-string sentinel, whatever the rest of
the schema is. -/
theorem claim_C9_missing_property_sentinel :
    (∀ (defs : Defs) (fuel : Nat) (name : String) (s : SchemaNode),
      s.props = none → get_prop_type defs fuel name s = .ok .emptyStr) ∧
    (∀ (defs : Defs) (fuel : Nat) (name : String) (s : SchemaNode)
      (ps : List (String × SchemaNode)),
      s.props = some ps → lookupProp ps name = none →
      get_prop_type defs fuel name s = .ok .emptyStr) := by
  constructor
  · intro defs fuel name s hp
    simp [get_prop_type, hp]
  · intro defs fuel name s ps hp hl
    simp [get_prop_type, hp, hl]

/-- Witness for C9: `Person` has no property `missing`, and a bare
`{"type": "object"}` node has no `properties` key at all. -/
theorem claim_C9_missing_property_sentinel_witness :
    get_prop_type [] 3 "missing" personNode = .ok .emptyStr ∧
    get_prop_type [] 3 "name" objNode = .ok .emptyStr :=
  ⟨claim_C9_missing_property_sentinel.2 [] 3 "missing" personNode
      [("name", nodeS "string"), ("age", nodeS "string")] rfl rfl,
   claim_C9_missing_property_sentinel.1 [] 3 "name" objNode rfl⟩

/-- C10: a node whose resolved type tag is the object kind but which
carries none of `properties`, `$ref`, `allOf` makes the properties
operation return the Python `None` (here `.ok none`), not the empty
triple. -/
theorem claim_C10_object_without_keys (defs : Defs) (fuel : Nat) (s : SchemaNode)
    (hp : s.props = none) (hr : s.ref = none) (ha : s.allOf = none)
    (hgt : get_type defs fuel s = .ok .emptyObj) :
    get_properties defs (fuel + 1) s = .ok none ∧
      (Except.ok none ≠
        (.ok (some ([], [], [])) :
          Except String (Option (List (String × SchemaNode) × List String × List Value)))) :=
  ⟨get_properties_plain defs fuel s hgt hp hr ha, by simp⟩

/-- Witness for C10 at `{"type": "object"}` and at the empty node. -/
theorem claim_C10_object_without_keys_witness :
    get_properties [] 5 objNode = .ok none ∧
    get_properties [] 5 emptyNode = .ok none :=
  ⟨(claim_C10_object_without_keys [] 4 objNode rfl rfl rfl rfl).1,
   (claim_C10_object_without_keys [] 4 emptyNode rfl rfl rfl rfl).1⟩

end MetaData
